import Mathlib

/-!
# Keyboard settings dialog (`source/dialogs/keyboardsettingsdialog.cpp`)

A shallow embedding of `KeyboardSettingsDialog`: the dialog's widgets are a
record (the command tree as a list of three-column items, the current item as
an optional index, the text of the shortcut edit field), the externally owned
`Command` objects live in a store indexed by address, and every member
function is a function on that state.  Dereferencing a null `currentItem()`
has no result (`none`).

The widget toolkit's key-sequence class is not part of the repository; its
three services used by the dialog are taken as a parameter
(`KeySequenceKit`).
-/

namespace KeyboardSettings

/-! ## Toolkit constants -/

/-- `Qt::Key_Backspace`. -/
def Key_Backspace : Nat := 0x01000003
/-- `Qt::Key_Shift`. -/
def Key_Shift : Nat := 0x01000020
/-- `Qt::Key_Control`. -/
def Key_Control : Nat := 0x01000021
/-- `Qt::Key_Meta`. -/
def Key_Meta : Nat := 0x01000022
/-- `Qt::Key_Alt`. -/
def Key_Alt : Nat := 0x01000023
/-- `Qt::Key_A`. -/
def Key_A : Nat := 0x41
/-- `Qt::Key_unknown`, the largest key code. -/
def Key_unknown : Nat := 0x01ffffff

/-- `Qt::ShiftModifier`. -/
def ShiftModifier : Nat := 0x02000000
/-- `Qt::ControlModifier`. -/
def ControlModifier : Nat := 0x04000000
/-- `Qt::AltModifier`. -/
def AltModifier : Nat := 0x08000000
/-- `Qt::MetaModifier`. -/
def MetaModifier : Nat := 0x10000000
/-- `Qt::KeypadModifier`. -/
def KeypadModifier : Nat := 0x20000000

/-- `QEvent::KeyPress`. -/
def KeyPress : Nat := 6
/-- `QEvent::KeyRelease`. -/
def KeyRelease : Nat := 7

/-- `QDialog::Rejected`. -/
def Rejected : Nat := 0
/-- `QDialog::Accepted`. -/
def Accepted : Nat := 1

/-! ## Data model -/

/-- The key-sequence services of the toolkit that the dialog calls, over the
toolkit's key-sequence type `K`: construction from an integer key code
(`QKeySequence(int)`), construction from text (the implicit
`QKeySequence(const QString &)` at `command->setShortcut(text)`), and
`QKeySequence::toString()`. -/
structure KeySequenceKit (K : Type) where
  fromKey : Nat → K
  fromString : String → K
  toString : K → String

/-- Modelled from the spec: the `Command` class (`app/command.h`), an
application action with an identifier, a label (its tool tip), a current
shortcut and a default shortcut. -/
structure Command (K : Type) where
  id : String
  toolTip : String
  shortcut : K
  defaultShortcut : K

/-- Modelled from the spec: `Command::setShortcut` (`app/command.h`)
overwrites the command's shortcut field and nothing else. -/
def Command.setShortcut {K : Type} (c : Command K) (k : K) : Command K :=
  { c with shortcut := k }

/-- A top-level item of the command tree: the texts of the columns
`CommandId`, `CommandLabel`, `CommandShortcut`, and the `Command *` stored
under `Qt::UserRole` in column 0 (an address in the command store). -/
structure Item where
  commandId : String
  label : String
  shortcut : String
  data : Nat
  deriving DecidableEq, Repr

/-- A received event: its `type()`, and for key events `key()` and
`modifiers()` (32-bit patterns). -/
structure QEvent where
  type : Nat
  key : Nat
  modifiers : Nat
  deriving DecidableEq, Repr

/-- The dialog's own state: `myCommands`, the items of `ui->commandsList`,
its current item (`none` is the null pointer), the text of
`ui->shortcutEdit`, and the result code set by `done`. -/
structure Dialog where
  myCommands : List Nat
  commandsList : List Item
  currentItem : Option Nat
  shortcutEdit : String
  result : Option Nat
  deriving DecidableEq, Repr

/-- The program state: the application's command objects by address, and the
dialog. -/
structure World (K : Type) where
  commands : Nat → Command K
  dialog : Dialog

/-! ## Operations -/

/-- `compareCommands`: `cmd1->id() < cmd2->id()`, the lexicographic order of
the identifiers' characters. -/
def compareCommands {K : Type} (commands : Nat → Command K) (cmd1 cmd2 : Nat) : Prop :=
  (commands cmd1).id.data < (commands cmd2).id.data

instance {K : Type} (commands : Nat → Command K) : DecidableRel (compareCommands commands) :=
  fun a b => inferInstanceAs (Decidable ((commands a).id.data < (commands b).id.data))

/-- The row built for one command in `initializeCommandTable`. -/
def makeItem {K : Type} (kit : KeySequenceKit K) (commands : Nat → Command K)
    (command : Nat) : Item :=
  { commandId := (commands command).id
    label := (commands command).toolTip
    shortcut := kit.toString (commands command).shortcut
    data := command }

/-- `KeyboardSettingsDialog::initializeCommandTable`: sort `myCommands` by
identifier (`qSort` fixes the order only up to commands with equal
identifiers; an insertion sort stands for it), add one item per command, make
the item at the top of the list, `itemAt(0, 0)`, current (null when the list
is empty).  No slot is connected to the list's `currentItemChanged` signal yet
when this runs, so the edit field is not touched. -/
def initializeCommandTable {K : Type} (kit : KeySequenceKit K) (w : World K) : World K :=
  let sorted := w.dialog.myCommands.insertionSort (compareCommands w.commands)
  let items := w.dialog.commandsList ++ sorted.map (makeItem kit w.commands)
  { w with dialog :=
    { w.dialog with
      myCommands := sorted
      commandsList := items
      currentItem := if items.isEmpty then none else some 0 } }

/-- The constructor: `setupUi` leaves an empty tree with no current item and
the edit field holding `uiText`; then `initializeCommandTable` runs; the
event filter and the three signal connections are installed afterwards. -/
def construct {K : Type} (kit : KeySequenceKit K) (commands : Nat → Command K)
    (cmds : List Nat) (uiText : String) : World K :=
  initializeCommandTable kit
    { commands := commands
      dialog :=
        { myCommands := cmds
          commandsList := []
          currentItem := none
          shortcutEdit := uiText
          result := none } }

/-- `KeyboardSettingsDialog::setShortcut`. -/
def setShortcut {K : Type} (w : World K) (shortcut : String) : Option (World K) :=
  match w.dialog.currentItem with
  | none => none
  | some i =>
    if i < w.dialog.commandsList.length then
      some { w with dialog :=
        { w.dialog with
          commandsList := w.dialog.commandsList.modify (fun it => { it with shortcut := shortcut }) i
          shortcutEdit := shortcut } }
    else none

/-- `KeyboardSettingsDialog::activeCommand`. -/
def activeCommand {K : Type} (w : World K) : Option Nat :=
  match w.dialog.currentItem with
  | none => none
  | some i => (w.dialog.commandsList[i]?).map Item.data

/-- The key code built in `processKeyPress`:
`key |= (e->modifiers() & ~Qt::KeypadModifier)` on 32-bit patterns. -/
def combinedKey (e : QEvent) : Nat :=
  e.key ||| (e.modifiers &&& (0xFFFFFFFF ^^^ KeypadModifier))

/-- `KeyboardSettingsDialog::processKeyPress` (the event's accepted flag,
set by `e->accept()`, is not part of the state). -/
def processKeyPress {K : Type} (kit : KeySequenceKit K) (w : World K) (e : QEvent) :
    Option (World K) :=
  if e.key = Key_Control ∨ e.key = Key_Shift ∨ e.key = Key_Meta ∨ e.key = Key_Alt then
    some w
  else if e.key = Key_Backspace then
    setShortcut w ""
  else
    setShortcut w (kit.toString (kit.fromKey (combinedKey e)))

/-- `KeyboardSettingsDialog::eventFilter`: the returned flag and the state. -/
def eventFilter {K : Type} (kit : KeySequenceKit K) (w : World K) (e : QEvent) :
    Option (Bool × World K) :=
  if e.type = KeyPress then
    (processKeyPress kit w e).map (fun w1 => (true, w1))
  else if e.type = KeyRelease then
    some (true, w)
  else
    some (false, w)

/-- `KeyboardSettingsDialog::resetShortcut`. -/
def resetShortcut {K : Type} (kit : KeySequenceKit K) (w : World K) : Option (World K) :=
  (activeCommand w).bind (fun c => setShortcut w (kit.toString (w.commands c).shortcut))

/-- `KeyboardSettingsDialog::resetToDefaultShortcut`. -/
def resetToDefaultShortcut {K : Type} (kit : KeySequenceKit K) (w : World K) :
    Option (World K) :=
  (activeCommand w).bind (fun c => setShortcut w (kit.toString (w.commands c).defaultShortcut))

/-- `KeyboardSettingsDialog::activeCommandChanged`, with the new current item
as an index into the list (`none` is the null pointer). -/
def activeCommandChanged {K : Type} (w : World K) (current : Option Nat) : Option (World K) :=
  match current with
  | none => none
  | some i =>
    match w.dialog.commandsList[i]? with
    | none => none
    | some it => some { w with dialog := { w.dialog with shortcutEdit := it.shortcut } }

/-- The body of the loop in `saveShortcuts`:
`command->setShortcut(currentItem->text(CommandShortcut))` for the command
stored in the item. -/
def writeShortcut {K : Type} (kit : KeySequenceKit K) (h : Nat → Command K) (it : Item) :
    Nat → Command K :=
  Function.update h it.data ((h it.data).setShortcut (kit.fromString it.shortcut))

/-- `KeyboardSettingsDialog::saveShortcuts`: the store after the loop over
the top-level items. -/
def saveShortcuts {K : Type} (kit : KeySequenceKit K) (w : World K) : World K :=
  { w with commands := w.dialog.commandsList.foldl (writeShortcut kit) w.commands }

/-- `QDialog::done`. -/
def done {K : Type} (w : World K) (r : Nat) : World K :=
  { w with dialog := { w.dialog with result := some r } }

/-- `KeyboardSettingsDialog::accept`. -/
def accept {K : Type} (kit : KeySequenceKit K) (w : World K) : World K :=
  done (saveShortcuts kit w) Accepted

/-- `QDialog::reject`, which the dialog does not override. -/
def reject {K : Type} (w : World K) : World K :=
  done w Rejected

/-- The list makes item `i` current: nothing is emitted when it already is
current, otherwise `currentItemChanged` reaches `activeCommandChanged`. -/
def selectItem {K : Type} (w : World K) (i : Nat) : Option (World K) :=
  if w.dialog.currentItem = some i then some w
  else activeCommandChanged { w with dialog := { w.dialog with currentItem := some i } } (some i)

/-- What can happen to an open dialog. -/
inductive Action where
  | event (e : QEvent)
  | select (i : Nat)
  | resetClicked
  | defaultClicked
  | acceptClicked
  | rejectClicked
  deriving DecidableEq, Repr

/-- One action: events on the edit field go through the event filter, a
selection change through `activeCommandChanged`, the two buttons through
their slots, and the button box through `accept` or `reject`.  An event that
the filter does not consume goes on to the edit field, whose own handling
belongs to the toolkit and has no effect on this state. -/
def step {K : Type} (kit : KeySequenceKit K) (w : World K) : Action → Option (World K)
  | .event e => (eventFilter kit w e).map Prod.snd
  | .select i => selectItem w i
  | .resetClicked => resetShortcut kit w
  | .defaultClicked => resetToDefaultShortcut kit w
  | .acceptClicked => some (accept kit w)
  | .rejectClicked => some (reject w)

/-- A sequence of actions, stopping without a result at the first one that
has none. -/
def run {K : Type} (kit : KeySequenceKit K) (w : World K) : List Action → Option (World K)
  | [] => some w
  | a :: as => (step kit w a).bind (fun w1 => run kit w1 as)

/-! ## A concrete key-sequence kit

Single-key sequences in the toolkit's portable text format, for evaluating
the dialog on concrete inputs: a sequence is its key code, code 0 is the empty
sequence and has the empty text, modifiers are written in the order Meta,
Ctrl, Alt, Shift. -/

/-- Portable names of some special keys. -/
def keyNames : List (Nat × String) :=
  [(0x20, "Space"), (0x01000000, "Esc"), (0x01000001, "Tab"), (0x01000003, "Backspace"),
   (0x01000004, "Return"), (0x01000005, "Enter"), (0x01000006, "Ins"), (0x01000007, "Del")]

/-- The four modifier bits that the text format writes out. -/
def modifierBits : Nat :=
  ShiftModifier ||| ControlModifier ||| AltModifier ||| MetaModifier

/-- Name of a key without modifiers. -/
def keyName (key : Nat) : String :=
  match keyNames.lookup key with
  | some n => n
  | none => if key = 0 then "" else String.singleton (Char.ofNat key).toUpper

/-- Text of a single-key sequence. -/
def portableText (code : Nat) : String :=
  if code = 0 then ""
  else
    (if code &&& MetaModifier = 0 then "" else "Meta+") ++
    (if code &&& ControlModifier = 0 then "" else "Ctrl+") ++
    (if code &&& AltModifier = 0 then "" else "Alt+") ++
    (if code &&& ShiftModifier = 0 then "" else "Shift+") ++
    keyName (code &&& (0xFFFFFFFF ^^^ modifierBits))

/-- The rest of `s` after the leading characters `p`, if `s` starts with them. -/
def afterLeading : List Char → List Char → Option (List Char)
  | [], s => some s
  | _ :: _, [] => none
  | c :: p, d :: s => if c = d then afterLeading p s else none

/-- Consume one modifier name at the head of the text, if present. -/
def takeModifier (name : String) (bit : Nat) (st : Nat × List Char) : Nat × List Char :=
  match afterLeading name.data st.2 with
  | some rest => (st.1 ||| bit, rest)
  | none => st

/-- Key code of a key name. -/
def keyOfName (n : List Char) : Nat :=
  match keyNames.find? (fun p => p.2.data = n) with
  | some p => p.1
  | none =>
    match n with
    | [c] => c.toUpper.toNat
    | _ => 0

/-- Key code of a portable text. -/
def parseText (s : String) : Nat :=
  let st := takeModifier "Shift+" ShiftModifier
    (takeModifier "Alt+" AltModifier
      (takeModifier "Ctrl+" ControlModifier
        (takeModifier "Meta+" MetaModifier (0, s.data))))
  st.1 ||| keyOfName st.2

/-- The concrete kit. -/
def sampleKit : KeySequenceKit Nat where
  fromKey := fun k => k
  fromString := parseText
  toString := portableText

/-- Two application commands, at addresses 0 and 1 (every other address
holds a copy of the second): "New" with Ctrl+N, and "Open" whose shortcut
was changed from its default Ctrl+O to Ctrl+L. -/
def sampleCommands : Nat → Command Nat
  | 0 => { id := "File.New", toolTip := "New", shortcut := 0x0400004e, defaultShortcut := 0x0400004e }
  | _ => { id := "File.Open", toolTip := "Open", shortcut := 0x0400004c, defaultShortcut := 0x0400004f }

/-- The dialog as constructed over the two sample commands, passed in the
order Open, New. -/
def sampleWorld : World Nat :=
  construct sampleKit sampleCommands [1, 0] ""

/-! ## State predicates -/

/-- The current item, if there is one, is an item of the list. -/
def CurrentValid (d : Dialog) : Prop :=
  ∀ i, d.currentItem = some i → i < d.commandsList.length

/-- What one action keeps: the `Command *` of every item, and the validity
of the current item. -/
def Kept {K : Type} (w w1 : World K) : Prop :=
  w1.dialog.commandsList.map Item.data = w.dialog.commandsList.map Item.data ∧
  (CurrentValid w.dialog → CurrentValid w1.dialog)

/-- The edit field shows the shortcut text of the current item. -/
def Mirrors (d : Dialog) : Prop :=
  ∀ i, d.currentItem = some i → (d.commandsList[i]?).map Item.shortcut = some d.shortcutEdit

/-! ## Basic facts about the operations -/

/-- With a current item that is in the list, `setShortcut` returns this state. -/
theorem setShortcut_eq_some {K : Type} (w : World K) (s : String) (i : Nat)
    (hcur : w.dialog.currentItem = some i) (hi : i < w.dialog.commandsList.length) :
    setShortcut w s = some { w with dialog :=
      { w.dialog with
        commandsList := w.dialog.commandsList.modify (fun it => { it with shortcut := s }) i
        shortcutEdit := s } } := by
  simp [setShortcut, hcur, hi]

/-- With a current item that is in the list, `setShortcut` returns, and the
returned state differs only in the shortcut text of the current item and in
the edit field. -/
theorem setShortcut_active {K : Type} (w : World K) (s : String) (i : Nat)
    (hcur : w.dialog.currentItem = some i) (hi : i < w.dialog.commandsList.length) :
    ∃ w1, setShortcut w s = some w1 ∧
      w1.commands = w.commands ∧
      w1.dialog.myCommands = w.dialog.myCommands ∧
      w1.dialog.result = w.dialog.result ∧
      w1.dialog.currentItem = some i ∧
      w1.dialog.shortcutEdit = s ∧
      w1.dialog.commandsList = w.dialog.commandsList.modify (fun it => { it with shortcut := s }) i :=
  ⟨_, setShortcut_eq_some w s i hcur hi, rfl, rfl, rfl, hcur, rfl, rfl⟩

/-- The shortcut text of the rewritten item. -/
theorem shortcut_modify (l : List Item) (s : String) (i : Nat) (hi : i < l.length) :
    ((l.modify (fun it => { it with shortcut := s }) i)[i]?).map Item.shortcut = some s := by
  simp [List.getElem?_modify_eq, List.getElem?_eq_getElem hi]

/-- Whatever `setShortcut` returns has the text in the edit field and in the
current item, the same commands, the same current item and the same
`Command *` in every item. -/
theorem setShortcut_spec {K : Type} (w w1 : World K) (s : String)
    (h : setShortcut w s = some w1) :
    ∃ i, w.dialog.currentItem = some i ∧ i < w.dialog.commandsList.length ∧
      w1.commands = w.commands ∧
      w1.dialog.currentItem = some i ∧
      w1.dialog.shortcutEdit = s ∧
      w1.dialog.commandsList = w.dialog.commandsList.modify (fun it => { it with shortcut := s }) i := by
  unfold setShortcut at h
  split at h
  · simp at h
  · rename_i i hcur
    split at h
    · rename_i hi
      simp only [Option.some.injEq] at h
      subst h
      exact ⟨i, hcur, hi, rfl, hcur, rfl, rfl⟩
    · simp at h

/-- Rewriting the shortcut text of one item keeps every item's `Command *`. -/
theorem map_data_modify (l : List Item) (s : String) (i : Nat) :
    (l.modify (fun it => { it with shortcut := s }) i).map Item.data = l.map Item.data := by
  induction l generalizing i with
  | nil => simp
  | cons a l ih =>
    cases i with
    | zero => simp
    | succ n => simp [ih]

/-- The keypad bit of the key code built in `processKeyPress` is the keypad
bit of the key itself: the modifiers contribute none. -/
theorem combinedKey_keypad (e : QEvent) :
    combinedKey e &&& KeypadModifier = e.key &&& KeypadModifier := by
  have h : (0xFFFFFFFF ^^^ KeypadModifier) &&& KeypadModifier = 0 := by decide
  unfold combinedKey
  apply Nat.eq_of_testBit_eq
  intro j
  have hj := congrArg (fun n => Nat.testBit n j) h
  simp only [Nat.testBit_and, Nat.zero_testBit] at hj
  simp only [Nat.testBit_and, Nat.testBit_or]
  cases hk : e.key.testBit j <;> cases hm : e.modifiers.testBit j <;>
    cases hp : KeypadModifier.testBit j <;> simp_all

/-- A key code of the toolkit has no keypad bit, so neither has the key code
built from it in `processKeyPress`. -/
theorem combinedKey_keypad_clear (e : QEvent) (hcode : e.key ≤ Key_unknown) :
    combinedKey e &&& KeypadModifier = 0 := by
  rw [combinedKey_keypad]
  have hlt : e.key < 2 ^ 29 := by
    have h1 : Key_unknown < 2 ^ 29 := by decide
    omega
  apply Nat.eq_of_testBit_eq
  intro j
  have hp : KeypadModifier = 2 ^ 29 := by decide
  rw [Nat.testBit_and, hp, Nat.testBit_two_pow, Nat.zero_testBit]
  by_cases hj : 29 = j
  · subst hj
    rw [Nat.testBit_lt_two_pow hlt]
    rfl
  · simp [hj]

/-- A key press of a bare modifier returns with the state as it was. -/
theorem processKeyPress_modifier_eq {K : Type} (kit : KeySequenceKit K) (w : World K)
    (e : QEvent)
    (hkey : e.key = Key_Control ∨ e.key = Key_Shift ∨ e.key = Key_Meta ∨ e.key = Key_Alt) :
    processKeyPress kit w e = some w := by
  unfold processKeyPress
  rw [if_pos hkey]

/-- A key press that returns either changed nothing or went through
`setShortcut`. -/
theorem processKeyPress_cases {K : Type} (kit : KeySequenceKit K) (w w1 : World K)
    (e : QEvent) (h : processKeyPress kit w e = some w1) :
    w1 = w ∨ ∃ s, setShortcut w s = some w1 := by
  unfold processKeyPress at h
  split at h
  · left
    simp only [Option.some.injEq] at h
    exact h.symm
  · split at h
    · exact Or.inr ⟨_, h⟩
    · exact Or.inr ⟨_, h⟩

/-! ## Key presses -/

/-- C1: for every state and every key event whose key is Control, Shift,
Meta or Alt (any modifier mask), `processKeyPress` returns with the state
unchanged, so every item's shortcut text and the edit field are as before. -/
theorem processKeyPress_bare_modifier {K : Type} (kit : KeySequenceKit K) (w : World K)
    (e : QEvent)
    (hkey : e.key = Key_Control ∨ e.key = Key_Shift ∨ e.key = Key_Meta ∨ e.key = Key_Alt) :
    ∃ w1, processKeyPress kit w e = some w1 ∧ w1 = w ∧
      w1.dialog.commandsList.map Item.shortcut = w.dialog.commandsList.map Item.shortcut ∧
      w1.dialog.shortcutEdit = w.dialog.shortcutEdit := by
  exact ⟨w, processKeyPress_modifier_eq kit w e hkey, rfl, rfl, rfl⟩

/-- C1 at a press of Shift over the sample dialog. -/
theorem processKeyPress_bare_modifier_witness :
    ∃ w1, processKeyPress sampleKit sampleWorld ⟨KeyPress, Key_Shift, ShiftModifier⟩ = some w1 ∧
      w1 = sampleWorld ∧
      w1.dialog.commandsList.map Item.shortcut = sampleWorld.dialog.commandsList.map Item.shortcut ∧
      w1.dialog.shortcutEdit = sampleWorld.dialog.shortcutEdit :=
  processKeyPress_bare_modifier sampleKit sampleWorld ⟨KeyPress, Key_Shift, ShiftModifier⟩
    (by decide)

/-- C2: in every state with an active entry, a Backspace key press (any
modifier mask) makes the active entry's shortcut text and the edit field the
empty string. -/
theorem processKeyPress_backspace {K : Type} (kit : KeySequenceKit K) (w : World K)
    (e : QEvent) (i : Nat)
    (hcur : w.dialog.currentItem = some i) (hi : i < w.dialog.commandsList.length)
    (hkey : e.key = Key_Backspace) :
    ∃ w1, processKeyPress kit w e = some w1 ∧
      (w1.dialog.commandsList[i]?).map Item.shortcut = some "" ∧
      w1.dialog.shortcutEdit = "" := by
  have hno : ¬ (e.key = Key_Control ∨ e.key = Key_Shift ∨ e.key = Key_Meta ∨ e.key = Key_Alt) := by
    rw [hkey]; decide
  obtain ⟨w1, hw1, -, -, -, -, hedit, hlist⟩ := setShortcut_active w "" i hcur hi
  refine ⟨w1, ?_, ?_, hedit⟩
  · unfold processKeyPress
    rw [if_neg hno, if_pos hkey]
    exact hw1
  · rw [hlist]
    exact shortcut_modify _ _ i hi

/-- C2 at a press of Ctrl+Backspace over the sample dialog. -/
theorem processKeyPress_backspace_witness :
    ∃ w1, processKeyPress sampleKit sampleWorld ⟨KeyPress, Key_Backspace, ControlModifier⟩ = some w1 ∧
      (w1.dialog.commandsList[0]?).map Item.shortcut = some "" ∧
      w1.dialog.shortcutEdit = "" :=
  processKeyPress_backspace sampleKit sampleWorld ⟨KeyPress, Key_Backspace, ControlModifier⟩ 0
    (by decide) (by decide) (by decide)

/-- C3, as amended: in every state with an active entry, a key press whose
key (a key code of the toolkit, at most `Key_unknown`) is none of Control,
Shift, Meta, Alt, Backspace sets the active entry's shortcut text and the edit
field to the kit's text for the key code `key | (modifiers & ~KeypadModifier)`;
that code never has the keypad bit set; and in the portable text format key A
with modifiers Ctrl gives the shortcut "Ctrl+A". -/
theorem processKeyPress_other_key {K : Type} (kit : KeySequenceKit K) (w : World K)
    (e : QEvent) (i : Nat)
    (hcur : w.dialog.currentItem = some i) (hi : i < w.dialog.commandsList.length)
    (hkey : e.key ≠ Key_Control ∧ e.key ≠ Key_Shift ∧ e.key ≠ Key_Meta ∧ e.key ≠ Key_Alt ∧
      e.key ≠ Key_Backspace)
    (hcode : e.key ≤ Key_unknown) :
    (∃ w1, processKeyPress kit w e = some w1 ∧
      (w1.dialog.commandsList[i]?).map Item.shortcut =
        some (kit.toString (kit.fromKey (e.key ||| (e.modifiers &&& (0xFFFFFFFF ^^^ KeypadModifier))))) ∧
      w1.dialog.shortcutEdit =
        kit.toString (kit.fromKey (e.key ||| (e.modifiers &&& (0xFFFFFFFF ^^^ KeypadModifier))))) ∧
    (e.key ||| (e.modifiers &&& (0xFFFFFFFF ^^^ KeypadModifier))) &&& KeypadModifier = 0 ∧
    (∀ (v : World Nat) (j t : Nat), v.dialog.currentItem = some j →
      j < v.dialog.commandsList.length →
      ∃ v1, processKeyPress sampleKit v ⟨t, Key_A, ControlModifier⟩ = some v1 ∧
        (v1.dialog.commandsList[j]?).map Item.shortcut = some "Ctrl+A" ∧
        v1.dialog.shortcutEdit = "Ctrl+A") := by
  obtain ⟨h1, h2, h3, h4, h5⟩ := hkey
  have hno : ¬ (e.key = Key_Control ∨ e.key = Key_Shift ∨ e.key = Key_Meta ∨ e.key = Key_Alt) := by
    simp [h1, h2, h3, h4]
  refine ⟨?_, combinedKey_keypad_clear e hcode, ?_⟩
  · obtain ⟨w1, hw1, -, -, -, -, hedit, hlist⟩ :=
      setShortcut_active w (kit.toString (kit.fromKey (combinedKey e))) i hcur hi
    refine ⟨w1, ?_, ?_, hedit⟩
    · unfold processKeyPress
      rw [if_neg hno, if_neg h5]
      exact hw1
    · rw [hlist]
      exact shortcut_modify _ _ i hi
  · intro v j t hvcur hj
    obtain ⟨v1, hv1, -, -, -, -, hedit, hlist⟩ := setShortcut_active v "Ctrl+A" j hvcur hj
    refine ⟨v1, ?_, ?_, hedit⟩
    · have hmod : ¬ (Key_A = Key_Control ∨ Key_A = Key_Shift ∨ Key_A = Key_Meta ∨
          Key_A = Key_Alt) := by decide
      have hback : ¬ Key_A = Key_Backspace := by decide
      have hclosed : sampleKit.toString (sampleKit.fromKey
          (Key_A ||| (ControlModifier &&& (0xFFFFFFFF ^^^ KeypadModifier)))) = "Ctrl+A" := by
        decide
      have htext : sampleKit.toString (sampleKit.fromKey
          (combinedKey ⟨t, Key_A, ControlModifier⟩)) = "Ctrl+A" := hclosed
      unfold processKeyPress
      rw [if_neg hmod, if_neg hback, htext]
      exact hv1
    · rw [hlist]
      exact shortcut_modify _ _ j hj

/-- C3 as amended, at a press of 5 on the keypad with Shift over the sample
dialog: the key code handed to the kit is Shift+5 without the keypad bit, and
the first entry and the edit field show "Shift+5". -/
theorem processKeyPress_other_key_witness :
    (∃ w1, processKeyPress sampleKit sampleWorld
        ⟨KeyPress, 0x35, ShiftModifier ||| KeypadModifier⟩ = some w1 ∧
      (w1.dialog.commandsList[0]?).map Item.shortcut = some "Shift+5" ∧
      w1.dialog.shortcutEdit = "Shift+5") ∧
    (0x35 ||| ((ShiftModifier ||| KeypadModifier) &&& (0xFFFFFFFF ^^^ KeypadModifier))) &&&
      KeypadModifier = 0 := by
  obtain ⟨⟨w1, h1, h2, h3⟩, h4, -⟩ :=
    processKeyPress_other_key sampleKit sampleWorld
      ⟨KeyPress, 0x35, ShiftModifier ||| KeypadModifier⟩ 0
      (by decide) (by decide) (by decide) (by decide)
  refine ⟨⟨w1, h1, ?_, ?_⟩, h4⟩
  · rw [h2]
    decide
  · rw [h3]
    decide

/-- C3 as stated fails in two ways.  Key 0 (an unknown key) without
modifiers is none of the five special keys, and the shortcut becomes the text
of key code 0, which is empty.  And in the dialog constructed over no commands
there is no current item, and a key press of A with Ctrl has no result. -/
theorem processKeyPress_other_key_counterexample :
    (processKeyPress sampleKit sampleWorld ⟨KeyPress, 0, 0⟩).map
        (fun w1 => (w1.dialog.shortcutEdit, (w1.dialog.commandsList[0]?).map Item.shortcut)) =
      some ("", some "") ∧
    (construct sampleKit sampleCommands [] "").dialog.currentItem = none ∧
    (processKeyPress sampleKit (construct sampleKit sampleCommands [] "")
      ⟨KeyPress, Key_A, ControlModifier⟩).isSome = false := by
  refine ⟨by decide, by decide, by decide⟩

/-! ## What the actions preserve -/

/-- Doing nothing keeps everything. -/
theorem Kept.rfl {K : Type} (w : World K) : Kept w w := ⟨Eq.refl _, id⟩

/-- `setShortcut` writes no command, keeps every item's `Command *`, and
leaves a valid current item. -/
theorem setShortcut_kept {K : Type} (w w1 : World K) (s : String)
    (h : setShortcut w s = some w1) : w1.commands = w.commands ∧ Kept w w1 := by
  obtain ⟨i, -, hi, hcmds, hcur1, -, hlist⟩ := setShortcut_spec w w1 s h
  refine ⟨hcmds, ?_, ?_⟩
  · rw [hlist]
    exact map_data_modify _ _ _
  · intro _ j hj
    rw [hcur1] at hj
    simp only [Option.some.injEq] at hj
    rw [hlist, List.length_modify, ← hj]
    exact hi

/-- A change of the current item to item `i`, when it returns: item `i`
exists, is current afterwards, and its shortcut text is in the edit field;
the list and the commands are as before. -/
theorem activeCommandChanged_kept {K : Type} (w w1 : World K) (i : Nat)
    (h : activeCommandChanged { w with dialog := { w.dialog with currentItem := some i } } (some i)
      = some w1) :
    w1.commands = w.commands ∧ Kept w w1 ∧
      ∃ it, w.dialog.commandsList[i]? = some it ∧ w1.dialog.currentItem = some i ∧
        w1.dialog.commandsList = w.dialog.commandsList ∧ w1.dialog.shortcutEdit = it.shortcut := by
  unfold activeCommandChanged at h
  simp only at h
  split at h
  · simp at h
  · rename_i it hit
    simp only [Option.some.injEq] at h
    subst h
    refine ⟨rfl, ⟨rfl, ?_⟩, it, hit, rfl, rfl, rfl⟩
    intro _ j hj
    simp only [Option.some.injEq] at hj
    subst hj
    exact (List.getElem?_eq_some_iff.mp hit).1

/-- Every action keeps the items' commands and the validity of the current
item, and every action other than accepting keeps the commands. -/
theorem step_kept {K : Type} (kit : KeySequenceKit K) (w w1 : World K) (a : Action)
    (h : step kit w a = some w1) :
    Kept w w1 ∧ (a ≠ Action.acceptClicked → w1.commands = w.commands) := by
  cases a with
  | event e =>
    simp only [step, Option.map_eq_some'] at h
    obtain ⟨⟨b, w2⟩, hf, hw⟩ := h
    simp only at hw
    subst hw
    unfold eventFilter at hf
    split at hf
    · simp only [Option.map_eq_some', Prod.mk.injEq] at hf
      obtain ⟨w3, hp, -, h3⟩ := hf
      subst h3
      rcases processKeyPress_cases kit w w3 e hp with h0 | ⟨s, hs⟩
      · subst h0
        exact ⟨Kept.rfl _, fun _ => rfl⟩
      · exact ⟨(setShortcut_kept w w3 s hs).2, fun _ => (setShortcut_kept w w3 s hs).1⟩
    · split at hf
      · simp only [Option.some.injEq, Prod.mk.injEq] at hf
        obtain ⟨-, h3⟩ := hf
        subst h3
        exact ⟨Kept.rfl _, fun _ => rfl⟩
      · simp only [Option.some.injEq, Prod.mk.injEq] at hf
        obtain ⟨-, h3⟩ := hf
        subst h3
        exact ⟨Kept.rfl _, fun _ => rfl⟩
  | select i =>
    simp only [step, selectItem] at h
    split at h
    · simp only [Option.some.injEq] at h
      subst h
      exact ⟨Kept.rfl _, fun _ => rfl⟩
    · obtain ⟨hc, hk, -⟩ := activeCommandChanged_kept w w1 i h
      exact ⟨hk, fun _ => hc⟩
  | resetClicked =>
    simp only [step, resetShortcut, Option.bind_eq_some] at h
    obtain ⟨c, -, hs⟩ := h
    exact ⟨(setShortcut_kept w w1 _ hs).2, fun _ => (setShortcut_kept w w1 _ hs).1⟩
  | defaultClicked =>
    simp only [step, resetToDefaultShortcut, Option.bind_eq_some] at h
    obtain ⟨c, -, hs⟩ := h
    exact ⟨(setShortcut_kept w w1 _ hs).2, fun _ => (setShortcut_kept w w1 _ hs).1⟩
  | acceptClicked =>
    simp only [step, Option.some.injEq] at h
    subst h
    exact ⟨⟨rfl, fun hv => hv⟩, fun hne => absurd rfl hne⟩
  | rejectClicked =>
    simp only [step, Option.some.injEq] at h
    subst h
    exact ⟨⟨rfl, fun hv => hv⟩, fun _ => rfl⟩

/-- A sequence of actions keeps the items' commands and the validity of the
current item; without an accept it keeps the commands. -/
theorem run_kept {K : Type} (kit : KeySequenceKit K) (acts : List Action) :
    ∀ (w w1 : World K), run kit w acts = some w1 →
      Kept w w1 ∧ ((∀ a ∈ acts, a ≠ Action.acceptClicked) → w1.commands = w.commands) := by
  induction acts with
  | nil =>
    intro w w1 h
    simp only [run, Option.some.injEq] at h
    subst h
    exact ⟨Kept.rfl _, fun _ => rfl⟩
  | cons a acts ih =>
    intro w w1 h
    simp only [run, Option.bind_eq_some] at h
    obtain ⟨w2, h2, hrest⟩ := h
    obtain ⟨hk2, hc2⟩ := step_kept kit w w2 a h2
    obtain ⟨hk1, hc1⟩ := ih w2 w1 hrest
    refine ⟨⟨hk1.1.trans hk2.1, fun hv => hk1.2 (hk2.2 hv)⟩, ?_⟩
    intro hno
    rw [hc1 (fun b hb => hno b (List.mem_cons_of_mem _ hb)),
      hc2 (hno a (List.mem_cons_self _ _))]

/-! ## The constructed dialog -/

/-- The constructor writes no command. -/
theorem construct_commands {K : Type} (kit : KeySequenceKit K) (h : Nat → Command K)
    (cmds : List Nat) (t : String) : (construct kit h cmds t).commands = h := rfl

/-- The constructor does not touch the edit field. -/
theorem construct_shortcutEdit {K : Type} (kit : KeySequenceKit K) (h : Nat → Command K)
    (cmds : List Nat) (t : String) : (construct kit h cmds t).dialog.shortcutEdit = t := rfl

/-- The items of the constructed dialog carry the given commands, sorted. -/
theorem construct_data {K : Type} (kit : KeySequenceKit K) (h : Nat → Command K)
    (cmds : List Nat) (t : String) :
    (construct kit h cmds t).dialog.commandsList.map Item.data =
      cmds.insertionSort (compareCommands h) := by
  simp only [construct, initializeCommandTable, List.nil_append, List.map_map]
  have : (Item.data ∘ makeItem kit h) = id := by
    funext c
    rfl
  rw [this, List.map_id]

/-- The constructed dialog has a valid current item, or none. -/
theorem construct_valid {K : Type} (kit : KeySequenceKit K) (h : Nat → Command K)
    (cmds : List Nat) (t : String) : CurrentValid (construct kit h cmds t).dialog := by
  intro i hi
  simp only [construct, initializeCommandTable, List.nil_append] at hi ⊢
  split at hi
  · simp at hi
  · rename_i hne
    simp only [Option.some.injEq] at hi
    subst hi
    simp only [List.isEmpty_iff] at hne
    exact List.length_pos.mpr hne

/-- In every state reached from the constructed dialog, the items carry the
given commands in sorted order and the current item is valid; if no accept
happened the commands are the ones the dialog was constructed over. -/
theorem reachable_facts {K : Type} (kit : KeySequenceKit K) (h : Nat → Command K)
    (cmds : List Nat) (t : String) (acts : List Action) (w : World K)
    (hrun : run kit (construct kit h cmds t) acts = some w) :
    w.dialog.commandsList.map Item.data = cmds.insertionSort (compareCommands h) ∧
    CurrentValid w.dialog ∧
    ((∀ a ∈ acts, a ≠ Action.acceptClicked) → w.commands = h) := by
  obtain ⟨⟨hd, hv⟩, hc⟩ := run_kept kit acts _ w hrun
  exact ⟨hd.trans (construct_data kit h cmds t), hv (construct_valid kit h cmds t),
    fun hno => (hc hno).trans (construct_commands kit h cmds t)⟩

/-! ## Writing the shortcuts back -/

/-- The loop writes nothing to a command that no item carries. -/
theorem foldl_writeShortcut_of_not_mem {K : Type} (kit : KeySequenceKit K) (items : List Item) :
    ∀ (h : Nat → Command K) (c : Nat), c ∉ items.map Item.data →
      items.foldl (writeShortcut kit) h c = h c := by
  induction items with
  | nil => intro h c _; rfl
  | cons a l ih =>
    intro h c hc
    simp only [List.map_cons, List.mem_cons, not_or] at hc
    rw [List.foldl_cons, ih _ c hc.2]
    exact Function.update_noteq hc.1 _ _

/-- When no command is carried by two items, the loop leaves in each item's
command the key sequence of that item's text. -/
theorem foldl_writeShortcut_of_nodup {K : Type} (kit : KeySequenceKit K) (items : List Item) :
    ∀ (h : Nat → Command K), (items.map Item.data).Nodup → ∀ it ∈ items,
      items.foldl (writeShortcut kit) h it.data =
        (h it.data).setShortcut (kit.fromString it.shortcut) := by
  induction items with
  | nil => intro h _ it hit; cases hit
  | cons a l ih =>
    intro h hnd it hit
    simp only [List.map_cons, List.nodup_cons] at hnd
    rw [List.foldl_cons]
    rcases List.mem_cons.mp hit with heq | hmem
    · subst heq
      rw [foldl_writeShortcut_of_not_mem kit l _ _ hnd.1]
      exact Function.update_same _ _ _
    · rw [ih _ hnd.2 it hmem]
      have hne : it.data ≠ a.data := by
        intro heq
        exact hnd.1 (heq ▸ List.mem_map_of_mem Item.data hmem)
      unfold writeShortcut
      rw [Function.update_noteq hne]

/-- The loop changes no command's identifier, label or default shortcut. -/
theorem foldl_writeShortcut_fields {K : Type} (kit : KeySequenceKit K) (items : List Item) :
    ∀ (h : Nat → Command K) (c : Nat),
      (items.foldl (writeShortcut kit) h c).id = (h c).id ∧
      (items.foldl (writeShortcut kit) h c).toolTip = (h c).toolTip ∧
      (items.foldl (writeShortcut kit) h c).defaultShortcut = (h c).defaultShortcut := by
  induction items with
  | nil => intro h c; exact ⟨rfl, rfl, rfl⟩
  | cons a l ih =>
    intro h c
    rw [List.foldl_cons]
    have hstep : (writeShortcut kit h a c).id = (h c).id ∧
        (writeShortcut kit h a c).toolTip = (h c).toolTip ∧
        (writeShortcut kit h a c).defaultShortcut = (h c).defaultShortcut := by
      unfold writeShortcut
      by_cases hc : c = a.data
      · subst hc
        rw [Function.update_same]
        exact ⟨rfl, rfl, rfl⟩
      · rw [Function.update_noteq hc]
        exact ⟨rfl, rfl, rfl⟩
    obtain ⟨h1, h2, h3⟩ := ih (writeShortcut kit h a) c
    exact ⟨h1.trans hstep.1, h2.trans hstep.2.1, h3.trans hstep.2.2⟩

/-- No action changes a command's default shortcut. -/
theorem step_defaultShortcut {K : Type} (kit : KeySequenceKit K) (w w1 : World K) (a : Action)
    (h : step kit w a = some w1) (c : Nat) :
    (w1.commands c).defaultShortcut = (w.commands c).defaultShortcut := by
  by_cases ha : a = Action.acceptClicked
  · subst ha
    simp only [step, Option.some.injEq] at h
    subst h
    exact (foldl_writeShortcut_fields kit w.dialog.commandsList w.commands c).2.2
  · rw [(step_kept kit w w1 a h).2 ha]

/-- No sequence of actions changes a command's default shortcut. -/
theorem run_defaultShortcut {K : Type} (kit : KeySequenceKit K) (acts : List Action) :
    ∀ (w w1 : World K), run kit w acts = some w1 → ∀ c,
      (w1.commands c).defaultShortcut = (w.commands c).defaultShortcut := by
  induction acts with
  | nil =>
    intro w w1 h c
    simp only [run, Option.some.injEq] at h
    subst h
    rfl
  | cons a acts ih =>
    intro w w1 h c
    simp only [run, Option.bind_eq_some] at h
    obtain ⟨w2, h2, hrest⟩ := h
    rw [ih w2 w1 hrest c, step_defaultShortcut kit w w2 a h2 c]

/-- C9: in every state with an active entry, `setShortcut s` returns a state
in which the active entry's shortcut text and the edit field are both `s`,
and nothing else differs: the current item, the command and label texts and
the `Command *` of the active entry, every other entry, the number of
entries, `myCommands`, the result code and the commands themselves. -/
theorem setShortcut_frame {K : Type} (w : World K) (s : String) (i : Nat)
    (hcur : w.dialog.currentItem = some i) (hi : i < w.dialog.commandsList.length) :
    ∃ w1, setShortcut w s = some w1 ∧
      (w1.dialog.commandsList[i]?).map Item.shortcut = some s ∧
      w1.dialog.shortcutEdit = s ∧
      w1.dialog.currentItem = w.dialog.currentItem ∧
      (w1.dialog.commandsList[i]?).map Item.commandId =
        (w.dialog.commandsList[i]?).map Item.commandId ∧
      (w1.dialog.commandsList[i]?).map Item.label = (w.dialog.commandsList[i]?).map Item.label ∧
      (w1.dialog.commandsList[i]?).map Item.data = (w.dialog.commandsList[i]?).map Item.data ∧
      (∀ j, j ≠ i → w1.dialog.commandsList[j]? = w.dialog.commandsList[j]?) ∧
      w1.dialog.commandsList.length = w.dialog.commandsList.length ∧
      w1.dialog.myCommands = w.dialog.myCommands ∧
      w1.dialog.result = w.dialog.result ∧
      w1.commands = w.commands := by
  obtain ⟨w1, hw1, hcmds, hmy, hres, hcur1, hedit, hlist⟩ := setShortcut_active w s i hcur hi
  refine ⟨w1, hw1, ?_, hedit, hcur1.trans hcur.symm, ?_, ?_, ?_, ?_, ?_, hmy, hres, hcmds⟩
  · rw [hlist]
    exact shortcut_modify _ _ i hi
  · rw [hlist]
    simp [List.getElem?_modify_eq, List.getElem?_eq_getElem hi]
  · rw [hlist]
    simp [List.getElem?_modify_eq, List.getElem?_eq_getElem hi]
  · rw [hlist]
    simp [List.getElem?_modify_eq, List.getElem?_eq_getElem hi]
  · intro j hj
    rw [hlist]
    exact List.getElem?_modify_ne _ _ (Ne.symm hj)
  · rw [hlist]
    exact List.length_modify _ _ _

/-- C9 at the sample dialog and the text "Alt+X". -/
theorem setShortcut_frame_witness :
    ∃ w1, setShortcut sampleWorld "Alt+X" = some w1 ∧
      (w1.dialog.commandsList[0]?).map Item.shortcut = some "Alt+X" ∧
      w1.dialog.shortcutEdit = "Alt+X" ∧
      w1.dialog.currentItem = sampleWorld.dialog.currentItem ∧
      (w1.dialog.commandsList[0]?).map Item.commandId =
        (sampleWorld.dialog.commandsList[0]?).map Item.commandId ∧
      (w1.dialog.commandsList[0]?).map Item.label =
        (sampleWorld.dialog.commandsList[0]?).map Item.label ∧
      (w1.dialog.commandsList[0]?).map Item.data =
        (sampleWorld.dialog.commandsList[0]?).map Item.data ∧
      (∀ j, j ≠ 0 → w1.dialog.commandsList[j]? = sampleWorld.dialog.commandsList[j]?) ∧
      w1.dialog.commandsList.length = sampleWorld.dialog.commandsList.length ∧
      w1.dialog.myCommands = sampleWorld.dialog.myCommands ∧
      w1.dialog.result = sampleWorld.dialog.result ∧
      w1.commands = sampleWorld.commands :=
  setShortcut_frame sampleWorld "Alt+X" 0 (by decide) (by decide)

/-- C4, as amended: when the commands passed to the dialog are pairwise
distinct, then in every state reached from the constructed dialog, accepting
leaves in the command of every entry the key sequence given by the shortcut
text that the entry displays at that moment; every command passed is attached
to exactly one entry; and the dialog is done with result Accepted. -/
theorem accept_writes_every_shortcut {K : Type} (kit : KeySequenceKit K)
    (h : Nat → Command K) (cmds : List Nat) (t : String) (acts : List Action) (w : World K)
    (hnd : cmds.Nodup)
    (hrun : run kit (construct kit h cmds t) acts = some w) :
    (∀ (i : Nat) (it : Item), w.dialog.commandsList[i]? = some it →
      ((accept kit w).commands it.data).shortcut = kit.fromString it.shortcut) ∧
    (∀ c ∈ cmds, ∃! i : Nat, (w.dialog.commandsList[i]?).map Item.data = some c) ∧
    (w.dialog.commandsList.map Item.data).Perm cmds ∧
    (accept kit w).dialog.result = some Accepted := by
  obtain ⟨hdata, -, -⟩ := reachable_facts kit h cmds t acts w hrun
  have hperm : (w.dialog.commandsList.map Item.data).Perm cmds := by
    rw [hdata]
    exact List.perm_insertionSort _ cmds
  have hnd1 : (w.dialog.commandsList.map Item.data).Nodup := hperm.nodup_iff.mpr hnd
  refine ⟨?_, ?_, hperm, rfl⟩
  · intro i it hit
    have hmem : it ∈ w.dialog.commandsList := List.mem_iff_getElem?.mpr ⟨i, hit⟩
    show ((w.dialog.commandsList.foldl (writeShortcut kit) w.commands) it.data).shortcut = _
    rw [foldl_writeShortcut_of_nodup kit _ _ hnd1 it hmem]
    rfl
  · intro c hc
    have hc1 : c ∈ w.dialog.commandsList.map Item.data := hperm.mem_iff.mpr hc
    obtain ⟨i, hi⟩ := List.mem_iff_getElem?.mp hc1
    rw [List.getElem?_map] at hi
    refine ⟨i, ?_, ?_⟩
    · show Option.map Item.data w.dialog.commandsList[i]? = some c
      exact hi
    · intro j hj
      have hj1 : Option.map Item.data w.dialog.commandsList[j]? = some c := hj
      have hlt : j < (w.dialog.commandsList.map Item.data).length := by
        rw [← List.getElem?_map] at hj1
        exact (List.getElem?_eq_some_iff.mp hj1).1
      apply List.getElem?_inj hlt hnd1
      rw [List.getElem?_map, List.getElem?_map, hi, hj1]

/-- C4 as amended, after two edits of the sample dialog. -/
theorem accept_writes_every_shortcut_witness :
    ∃ w, run sampleKit (construct sampleKit sampleCommands [1, 0] "")
        [Action.event ⟨KeyPress, Key_A, ControlModifier⟩, Action.select 1,
          Action.event ⟨KeyPress, Key_Backspace, 0⟩] = some w ∧
      (∀ (i : Nat) (it : Item), w.dialog.commandsList[i]? = some it →
        ((accept sampleKit w).commands it.data).shortcut = sampleKit.fromString it.shortcut) ∧
      (∀ c ∈ [1, 0], ∃! i : Nat, (w.dialog.commandsList[i]?).map Item.data = some c) ∧
      (w.dialog.commandsList.map Item.data).Perm [1, 0] ∧
      (accept sampleKit w).dialog.result = some Accepted := by
  have hsome : (run sampleKit (construct sampleKit sampleCommands [1, 0] "")
      [Action.event ⟨KeyPress, Key_A, ControlModifier⟩, Action.select 1,
        Action.event ⟨KeyPress, Key_Backspace, 0⟩]).isSome = true := by decide
  obtain ⟨w, hw⟩ := Option.isSome_iff_exists.mp hsome
  exact ⟨w, hw, accept_writes_every_shortcut sampleKit sampleCommands [1, 0] "" _ w
    (by decide) hw⟩

/-- C4 as stated fails when one command is passed twice: both entries carry
command 0, the first is edited to "Ctrl+A" while the second still displays
"Ctrl+N", and after accepting the command holds the key sequence of the
second entry's text, not of the first entry's. -/
theorem accept_writes_every_shortcut_counterexample :
    (run sampleKit (construct sampleKit sampleCommands [0, 0] "")
        [Action.event ⟨KeyPress, Key_A, ControlModifier⟩]).map
      (fun w => (w.dialog.commandsList.map (fun it => (it.data, it.shortcut)),
        ((accept sampleKit w).commands 0).shortcut)) =
      some ([(0, "Ctrl+A"), (0, "Ctrl+N")], sampleKit.fromString "Ctrl+N") ∧
    sampleKit.fromString "Ctrl+N" ≠ sampleKit.fromString "Ctrl+A" := by
  refine ⟨by decide, by decide⟩

/-- C5: over every sequence of actions that contains no accept (key presses
and releases, other events, selection changes, Reset, Reset to default,
reject), starting from the constructor, the commands are the ones the dialog
was constructed over, so every command's shortcut and default shortcut are as
before; and any single action other than accept leaves the commands as they
were. -/
theorem commands_unchanged_without_accept {K : Type} (kit : KeySequenceKit K)
    (h : Nat → Command K) (cmds : List Nat) (t : String) (acts : List Action) (w : World K)
    (hno : ∀ a ∈ acts, a ≠ Action.acceptClicked)
    (hrun : run kit (construct kit h cmds t) acts = some w) :
    w.commands = h ∧
    (∀ c, (w.commands c).shortcut = (h c).shortcut ∧
      (w.commands c).defaultShortcut = (h c).defaultShortcut) ∧
    (∀ (w0 w1 : World K) (a : Action), a ≠ Action.acceptClicked →
      step kit w0 a = some w1 → w1.commands = w0.commands) := by
  have hc : w.commands = h := (reachable_facts kit h cmds t acts w hrun).2.2 hno
  refine ⟨hc, ?_, ?_⟩
  · intro c
    rw [hc]
    exact ⟨rfl, rfl⟩
  · intro w0 w1 a ha hs
    exact (step_kept kit w0 w1 a hs).2 ha

/-- C5 at a session over the sample dialog that ends in reject. -/
theorem commands_unchanged_without_accept_witness :
    ∃ w, run sampleKit (construct sampleKit sampleCommands [1, 0] "")
        [Action.event ⟨KeyPress, Key_A, ControlModifier⟩, Action.select 1,
          Action.event ⟨KeyRelease, Key_A, 0⟩, Action.resetClicked,
          Action.event ⟨KeyPress, Key_Backspace, 0⟩, Action.select 0, Action.defaultClicked,
          Action.rejectClicked] = some w ∧
      w.commands = sampleCommands ∧
      (∀ c, (w.commands c).shortcut = (sampleCommands c).shortcut ∧
        (w.commands c).defaultShortcut = (sampleCommands c).defaultShortcut) ∧
      (∀ (w0 w1 : World Nat) (a : Action), a ≠ Action.acceptClicked →
        step sampleKit w0 a = some w1 → w1.commands = w0.commands) := by
  have hsome : (run sampleKit (construct sampleKit sampleCommands [1, 0] "")
      [Action.event ⟨KeyPress, Key_A, ControlModifier⟩, Action.select 1,
        Action.event ⟨KeyRelease, Key_A, 0⟩, Action.resetClicked,
        Action.event ⟨KeyPress, Key_Backspace, 0⟩, Action.select 0, Action.defaultClicked,
        Action.rejectClicked]).isSome = true := by decide
  obtain ⟨w, hw⟩ := Option.isSome_iff_exists.mp hsome
  exact ⟨w, hw, commands_unchanged_without_accept sampleKit sampleCommands [1, 0] "" _ w
    (by decide) hw⟩

/-! ## The two resets -/

/-- With an active entry in the list, a reset slot that reads the text
`f c` off the active command `c` returns a state showing that text in the
active entry and in the edit field. -/
theorem reset_with {K : Type} (w : World K) (f : Nat → String) (i : Nat)
    (hcur : w.dialog.currentItem = some i) (hi : i < w.dialog.commandsList.length) :
    ∃ c w1, (w.dialog.commandsList[i]?).map Item.data = some c ∧
      activeCommand w = some c ∧
      (activeCommand w).bind (fun c => setShortcut w (f c)) = some w1 ∧
      (w1.dialog.commandsList[i]?).map Item.shortcut = some (f c) ∧
      w1.dialog.shortcutEdit = f c ∧
      w1.dialog.currentItem = some i ∧
      (∀ j, j ≠ i → w1.dialog.commandsList[j]? = w.dialog.commandsList[j]?) := by
  have hget : w.dialog.commandsList[i]? = some (w.dialog.commandsList[i]) :=
    List.getElem?_eq_getElem hi
  have hact : activeCommand w = some (w.dialog.commandsList[i]).data := by
    simp [activeCommand, hcur, hget]
  obtain ⟨w1, hw1, -, -, -, hcur1, hedit, hlist⟩ :=
    setShortcut_active w (f (w.dialog.commandsList[i]).data) i hcur hi
  refine ⟨_, w1, ?_, hact, ?_, ?_, hedit, hcur1, ?_⟩
  · rw [hget]
    rfl
  · rw [hact]
    exact hw1
  · rw [hlist]
    exact shortcut_modify _ _ i hi
  · intro j hj
    rw [hlist]
    exact List.getElem?_modify_ne _ _ (Ne.symm hj)

/-- C6, as amended: in every state reached from the constructed dialog by
actions other than accept in which an entry `i` is active, `resetShortcut`
returns, and sets both the active entry's shortcut text and the edit field to
the text of the shortcut that the active command, the command stored in entry
`i` and one of the commands passed, had when the dialog was constructed,
whatever the entry displayed before; nothing else in the list changes. -/
theorem resetShortcut_restores_saved {K : Type} (kit : KeySequenceKit K)
    (h : Nat → Command K) (cmds : List Nat) (t : String) (acts : List Action) (w : World K)
    (i : Nat)
    (hno : ∀ a ∈ acts, a ≠ Action.acceptClicked)
    (hrun : run kit (construct kit h cmds t) acts = some w)
    (hcur : w.dialog.currentItem = some i) :
    ∃ c w1, (w.dialog.commandsList[i]?).map Item.data = some c ∧
      activeCommand w = some c ∧ c ∈ cmds ∧
      resetShortcut kit w = some w1 ∧
      (w1.dialog.commandsList[i]?).map Item.shortcut = some (kit.toString (h c).shortcut) ∧
      w1.dialog.shortcutEdit = kit.toString (h c).shortcut ∧
      w1.dialog.currentItem = some i ∧
      (∀ j, j ≠ i → w1.dialog.commandsList[j]? = w.dialog.commandsList[j]?) := by
  obtain ⟨hdata, hvalid, hcmds⟩ := reachable_facts kit h cmds t acts w hrun
  obtain ⟨c, w1, hc, hact, hres, hs, he, hcur1, hrest⟩ :=
    reset_with w (fun c => kit.toString (w.commands c).shortcut) i hcur (hvalid i hcur)
  rw [hcmds hno] at hs he
  refine ⟨c, w1, hc, hact, ?_, hres, hs, he, hcur1, hrest⟩
  rw [← List.getElem?_map, hdata] at hc
  exact (List.mem_insertionSort _).mp (List.mem_iff_getElem?.mpr ⟨i, hc⟩)

/-- C6 as amended, at the sample dialog after the second entry (Open, saved
shortcut Ctrl+L) was selected and edited to "Ctrl+A": Reset puts "Ctrl+L"
back into that entry and into the edit field. -/
theorem resetShortcut_restores_saved_witness :
    ∃ w w1, run sampleKit (construct sampleKit sampleCommands [1, 0] "")
        [Action.select 1, Action.event ⟨KeyPress, Key_A, ControlModifier⟩] = some w ∧
      (w.dialog.commandsList[1]?).map Item.shortcut = some "Ctrl+A" ∧
      resetShortcut sampleKit w = some w1 ∧
      (w1.dialog.commandsList[1]?).map Item.shortcut = some "Ctrl+L" ∧
      w1.dialog.shortcutEdit = "Ctrl+L" := by
  have hfacts : (run sampleKit (construct sampleKit sampleCommands [1, 0] "")
      [Action.select 1, Action.event ⟨KeyPress, Key_A, ControlModifier⟩]).map
      (fun w => (w.dialog.currentItem, (w.dialog.commandsList[1]?).map Item.data,
        (w.dialog.commandsList[1]?).map Item.shortcut)) =
      some (some 1, some 1, some "Ctrl+A") := by decide
  have hsome : (run sampleKit (construct sampleKit sampleCommands [1, 0] "")
      [Action.select 1, Action.event ⟨KeyPress, Key_A, ControlModifier⟩]).isSome = true := by
    decide
  obtain ⟨w, hw⟩ := Option.isSome_iff_exists.mp hsome
  rw [hw] at hfacts
  simp only [Option.map_some', Option.some.injEq, Prod.mk.injEq] at hfacts
  obtain ⟨hcur, hdata, htext⟩ := hfacts
  obtain ⟨c, w1, hc, -, -, hres, hs, he, -, -⟩ :=
    resetShortcut_restores_saved sampleKit sampleCommands [1, 0] "" _ w 1 (by decide) hw hcur
  rw [hdata] at hc
  simp only [Option.some.injEq] at hc
  subst hc
  exact ⟨w, w1, hw, htext, hres, hs, he⟩

/-- C6 as stated fails in the dialog constructed over no commands: that
state is reached by the constructor alone, it has no current item, and
`resetShortcut`, dereferencing the current item, has no result there. -/
theorem resetShortcut_restores_saved_counterexample :
    (run sampleKit (construct sampleKit sampleCommands [] "") []).map
      (fun w => (w.dialog.commandsList, w.dialog.currentItem)) = some ([], none) ∧
    (resetShortcut sampleKit (construct sampleKit sampleCommands [] "")).isSome = false ∧
    (run sampleKit (construct sampleKit sampleCommands [] "") [Action.resetClicked]).isSome =
      false := by
  refine ⟨by decide, by decide, by decide⟩

/-- C7, as amended: in every state reached from the constructed dialog in
which an entry `i` is active, `resetToDefaultShortcut` returns, and sets both
the active entry's shortcut text and the edit field to the text of the default
shortcut of the active command, the command stored in entry `i` and one of
the commands passed; that default is the one it had at construction, whatever
its current shortcut and whatever the entry displayed before; nothing else in
the list changes. -/
theorem resetToDefaultShortcut_restores_default {K : Type} (kit : KeySequenceKit K)
    (h : Nat → Command K) (cmds : List Nat) (t : String) (acts : List Action) (w : World K)
    (i : Nat)
    (hrun : run kit (construct kit h cmds t) acts = some w)
    (hcur : w.dialog.currentItem = some i) :
    ∃ c w1, (w.dialog.commandsList[i]?).map Item.data = some c ∧
      activeCommand w = some c ∧ c ∈ cmds ∧
      resetToDefaultShortcut kit w = some w1 ∧
      (w1.dialog.commandsList[i]?).map Item.shortcut =
        some (kit.toString (w.commands c).defaultShortcut) ∧
      w1.dialog.shortcutEdit = kit.toString (w.commands c).defaultShortcut ∧
      (w.commands c).defaultShortcut = (h c).defaultShortcut ∧
      w1.dialog.currentItem = some i ∧
      (∀ j, j ≠ i → w1.dialog.commandsList[j]? = w.dialog.commandsList[j]?) := by
  obtain ⟨hdata, hvalid, -⟩ := reachable_facts kit h cmds t acts w hrun
  obtain ⟨c, w1, hc, hact, hres, hs, he, hcur1, hrest⟩ :=
    reset_with w (fun c => kit.toString (w.commands c).defaultShortcut) i hcur (hvalid i hcur)
  refine ⟨c, w1, hc, hact, ?_, hres, hs, he, ?_, hcur1, hrest⟩
  · rw [← List.getElem?_map, hdata] at hc
    exact (List.mem_insertionSort _).mp (List.mem_iff_getElem?.mpr ⟨i, hc⟩)
  · exact run_defaultShortcut kit acts _ w hrun c

/-- C7 as amended, at the sample dialog after the second entry (Open, default
Ctrl+O, current shortcut Ctrl+L) was selected and edited to "Ctrl+A": Reset to
default puts "Ctrl+O" into that entry and into the edit field. -/
theorem resetToDefaultShortcut_restores_default_witness :
    ∃ w w1, run sampleKit (construct sampleKit sampleCommands [1, 0] "")
        [Action.select 1, Action.event ⟨KeyPress, Key_A, ControlModifier⟩] = some w ∧
      (w.dialog.commandsList[1]?).map Item.shortcut = some "Ctrl+A" ∧
      resetToDefaultShortcut sampleKit w = some w1 ∧
      (w1.dialog.commandsList[1]?).map Item.shortcut = some "Ctrl+O" ∧
      w1.dialog.shortcutEdit = "Ctrl+O" := by
  have hfacts : (run sampleKit (construct sampleKit sampleCommands [1, 0] "")
      [Action.select 1, Action.event ⟨KeyPress, Key_A, ControlModifier⟩]).map
      (fun w => (w.dialog.currentItem, (w.dialog.commandsList[1]?).map Item.data,
        (w.dialog.commandsList[1]?).map Item.shortcut)) =
      some (some 1, some 1, some "Ctrl+A") := by decide
  have hsome : (run sampleKit (construct sampleKit sampleCommands [1, 0] "")
      [Action.select 1, Action.event ⟨KeyPress, Key_A, ControlModifier⟩]).isSome = true := by
    decide
  obtain ⟨w, hw⟩ := Option.isSome_iff_exists.mp hsome
  rw [hw] at hfacts
  simp only [Option.map_some', Option.some.injEq, Prod.mk.injEq] at hfacts
  obtain ⟨hcur, hdata, htext⟩ := hfacts
  obtain ⟨c, w1, hc, -, -, hres, hs, he, hdef, -, -⟩ :=
    resetToDefaultShortcut_restores_default sampleKit sampleCommands [1, 0] "" _ w 1 hw hcur
  rw [hdata] at hc
  simp only [Option.some.injEq] at hc
  subst hc
  rw [hdef] at hs he
  exact ⟨w, w1, hw, htext, hres, hs, he⟩

/-- C7 as stated fails in the dialog constructed over no commands: that
state is reached by the constructor alone, it has no current item, and
`resetToDefaultShortcut`, dereferencing the current item, has no result
there. -/
theorem resetToDefaultShortcut_restores_default_counterexample :
    (run sampleKit (construct sampleKit sampleCommands [] "") []).map
      (fun w => (w.dialog.commandsList, w.dialog.currentItem)) = some ([], none) ∧
    (resetToDefaultShortcut sampleKit (construct sampleKit sampleCommands [] "")).isSome =
      false ∧
    (run sampleKit (construct sampleKit sampleCommands [] "") [Action.defaultClicked]).isSome =
      false := by
  refine ⟨by decide, by decide, by decide⟩

/-! ## The edit field and the current item -/

/-- `setShortcut` leaves the edit field showing the current item's text. -/
theorem setShortcut_mirrors {K : Type} (w w1 : World K) (s : String)
    (h : setShortcut w s = some w1) : Mirrors w1.dialog := by
  obtain ⟨i, -, hi, -, hcur1, hedit, hlist⟩ := setShortcut_spec w w1 s h
  intro j hj
  rw [hcur1] at hj
  simp only [Option.some.injEq] at hj
  subst hj
  rw [hlist, hedit]
  exact shortcut_modify _ _ i hi

/-- Every action keeps the edit field showing the current item's text, once
it does. -/
theorem step_mirrors {K : Type} (kit : KeySequenceKit K) (w w1 : World K) (a : Action)
    (hm : Mirrors w.dialog) (h : step kit w a = some w1) : Mirrors w1.dialog := by
  cases a with
  | event e =>
    simp only [step, Option.map_eq_some'] at h
    obtain ⟨⟨b, w2⟩, hf, hw⟩ := h
    simp only at hw
    subst hw
    unfold eventFilter at hf
    split at hf
    · simp only [Option.map_eq_some', Prod.mk.injEq] at hf
      obtain ⟨w3, hp, -, h3⟩ := hf
      subst h3
      rcases processKeyPress_cases kit w w3 e hp with h0 | ⟨s, hs⟩
      · subst h0
        exact hm
      · exact setShortcut_mirrors w w3 s hs
    · split at hf
      · simp only [Option.some.injEq, Prod.mk.injEq] at hf
        obtain ⟨-, h3⟩ := hf
        subst h3
        exact hm
      · simp only [Option.some.injEq, Prod.mk.injEq] at hf
        obtain ⟨-, h3⟩ := hf
        subst h3
        exact hm
  | select i =>
    simp only [step, selectItem] at h
    split at h
    · simp only [Option.some.injEq] at h
      subst h
      exact hm
    · obtain ⟨-, -, it, hit, hcur1, hlist, hedit⟩ := activeCommandChanged_kept w w1 i h
      intro j hj
      rw [hcur1] at hj
      simp only [Option.some.injEq] at hj
      subst hj
      rw [hlist, hedit, hit]
      rfl
  | resetClicked =>
    simp only [step, resetShortcut, Option.bind_eq_some] at h
    obtain ⟨c, -, hs⟩ := h
    exact setShortcut_mirrors w w1 _ hs
  | defaultClicked =>
    simp only [step, resetToDefaultShortcut, Option.bind_eq_some] at h
    obtain ⟨c, -, hs⟩ := h
    exact setShortcut_mirrors w w1 _ hs
  | acceptClicked =>
    simp only [step, Option.some.injEq] at h
    subst h
    exact hm
  | rejectClicked =>
    simp only [step, Option.some.injEq] at h
    subst h
    exact hm

/-- C8 fails in the state the constructor leaves: over the two sample
commands the first entry (New) is current and displays "Ctrl+N", while the
edit field still holds the text it had before `initializeCommandTable` ran
(empty), the slot that copies the current entry's text being connected only
afterwards; a bare modifier press and a key release then leave it so. -/
theorem construct_leaves_edit_field_behind :
    (construct sampleKit sampleCommands [1, 0] "").dialog.currentItem = some 0 ∧
    ((construct sampleKit sampleCommands [1, 0] "").dialog.commandsList[0]?).map Item.shortcut =
      some "Ctrl+N" ∧
    (construct sampleKit sampleCommands [1, 0] "").dialog.shortcutEdit = "" ∧
    ¬ Mirrors (construct sampleKit sampleCommands [1, 0] "").dialog ∧
    (run sampleKit (construct sampleKit sampleCommands [1, 0] "")
        [Action.event ⟨KeyPress, Key_Shift, ShiftModifier⟩,
          Action.event ⟨KeyRelease, Key_Shift, 0⟩]).map
      (fun w => (w.dialog.currentItem, (w.dialog.commandsList[0]?).map Item.shortcut,
        w.dialog.shortcutEdit)) = some (some 0, some "Ctrl+N", "") := by
  refine ⟨by decide, by decide, by decide, ?_, by decide⟩
  intro hm
  have h0 := hm 0 (by decide)
  revert h0
  decide

end KeyboardSettings
